import Mathlib

/-!
Verification of the event-scheduling core of CADET-Process
(`CADETProcess/common/event.py`): the `Event`, `Duration` and
`EventHandler` classes.

Times, states, factors and the cycle time are modelled as rationals;
Python's `%` operator on numbers is `pymod` below.  Events and
Durations are records; the registry holds them in insertion order and
dependency edges are stored as names (names are unique in a registry,
so a name identifies the referenced object).  Since dependency chains
are resolved recursively on every read and Python would recurse
forever on a dependency cycle, resolution is written with explicit
fuel and returns `none` when the fuel runs out or a dependency name is
not registered.  Mutating operations return the state after the call
together with the exception raised, if any, so that partially
committed mutations are observable.
-/

namespace CadetEvent

/-- Python's `%` on numbers: `a % b = a - b * floor (a / b)`. -/
def pymod (a b : ℚ) : ℚ := a - b * ⌊a / b⌋

/-- Exceptions raised by the code: `CADETProcessError(msg)`, and the
builtin `KeyError` and `TypeError`. -/
inductive Err where
  | cadet (msg : String) : Err
  | keyError : Err
  | typeError : Err
deriving DecidableEq, Repr

/-- The data of an `Event` (also used for `Duration`, which inherits
everything relevant from `Event`): the name, the dot-path of the target
parameter, the stored `_time`, the stored `_state`, and the paired
lists `_dependencies` (stored by name) and `_factors`. -/
structure Event where
  name : String
  parameter_path : String
  stored_time : ℚ
  state : ℚ
  dependencies : List String
  factors : List ℚ
deriving DecidableEq, Repr

/-- The registry state of an `EventHandler`: `cycle_time`, the list
`_events` and the list `_durations`, both in insertion order. -/
structure EventHandler where
  cycle_time : ℚ
  events : List Event
  durations : List Event
deriving DecidableEq, Repr

/-- `isIndependent`: an event is independent iff its dependency list is
empty. -/
def Event.isIndependent (e : Event) : Bool := e.dependencies.isEmpty

/-- `events_dict[name]`: name lookup over events and durations combined
(`{**evts, **durs}`, so durations shadow events on a name collision). -/
def lookupEntity (h : EventHandler) (n : String) : Option Event :=
  match h.durations.find? (fun e => e.name = n) with
  | some d => some d
  | none => h.events.find? (fun e => e.name = n)

/-- `np.dot` of two lists of equal length (the registry always keeps
`_dependencies` and `_factors` the same length). -/
def dot (xs ys : List ℚ) : ℚ := ((xs.zip ys).map (fun p => p.1 * p.2)).sum

mutual
/-- The `Event.time` property: an independent event resolves to its
stored time modulo `cycle_time`; a dependent event resolves to the dot
product of its dependencies' (recursively resolved) times with its
factors, modulo `cycle_time`.  Fuel bounds the recursion depth; `none`
models the nontermination / lookup failure the Python would hit. -/
def timeR (h : EventHandler) : Nat → Event → Option ℚ
  | 0, _ => none
  | fuel + 1, e =>
    if e.dependencies = [] then
      some (pymod e.stored_time h.cycle_time)
    else
      match timeList h fuel e.dependencies with
      | some ts => some (pymod (dot ts e.factors) h.cycle_time)
      | none => none
termination_by fuel _ => (fuel, 0)

/-- Resolve the times of a list of dependency names. -/
def timeList (h : EventHandler) : Nat → List String → Option (List ℚ)
  | _, [] => some []
  | fuel, n :: ns =>
    match lookupEntity h n with
    | none => none
    | some d =>
      match timeR h fuel d, timeList h fuel ns with
      | some t, some ts => some (t :: ts)
      | _, _ => none
termination_by fuel ns => (fuel, ns.length + 1)
end

/-- `0 ≤ pymod a b` when `0 < b`. -/
theorem pymod_nonneg (a : ℚ) {b : ℚ} (hb : 0 < b) : 0 ≤ pymod a b := by
  have h1 : (⌊a / b⌋ : ℚ) ≤ a / b := Int.floor_le _
  have h2 : b * (⌊a / b⌋ : ℚ) ≤ b * (a / b) :=
    mul_le_mul_of_nonneg_left h1 (le_of_lt hb)
  have h3 : b * (a / b) = a := by
    field_simp
  unfold pymod
  linarith

/-- `pymod a b < b` when `0 < b`. -/
theorem pymod_lt (a : ℚ) {b : ℚ} (hb : 0 < b) : pymod a b < b := by
  have h1 : a / b < (⌊a / b⌋ : ℚ) + 1 := Int.lt_floor_add_one _
  have h2 : b * (a / b) < b * ((⌊a / b⌋ : ℚ) + 1) :=
    (mul_lt_mul_left hb).mpr h1
  have h3 : b * (a / b) = a := by
    field_simp
  unfold pymod
  nlinarith

/-- `pymod` is the identity on `[0, b)`. -/
theorem pymod_eq_self {a b : ℚ} (h0 : 0 ≤ a) (hab : a < b) : pymod a b = a := by
  have hb : 0 < b := lt_of_le_of_lt h0 hab
  have : ⌊a / b⌋ = 0 := by
    apply Int.floor_eq_zero_iff.mpr
    constructor
    · positivity
    · rw [div_lt_one hb]; exact hab
  unfold pymod
  rw [this]
  simp

/-- Every successfully resolved time is a `pymod _ cycle_time`. -/
theorem timeR_eq_pymod (h : EventHandler) (fuel : Nat) (e : Event) (t : ℚ)
    (ht : timeR h fuel e = some t) : ∃ x, t = pymod x h.cycle_time := by
  cases fuel with
  | zero => simp [timeR] at ht
  | succ fuel =>
    unfold timeR at ht
    by_cases hdep : e.dependencies = []
    · simp [hdep] at ht
      exact ⟨e.stored_time, ht.symm⟩
    · simp [hdep] at ht
      cases hlist : timeList h fuel e.dependencies with
      | none => rw [hlist] at ht; simp at ht
      | some ts =>
        rw [hlist] at ht
        simp at ht
        exact ⟨dot ts e.factors, ht.symm⟩

/-- The `Event.time` setter: a numeric value is stored as `_time` when
the event is independent; for a dependent event the setter raises
`CADETProcessError("Cannot set time for dependent events")` and leaves
the event unchanged.  (The argument is a number by type, so the
`isinstance(time, (int, float))` guard passes.) -/
def Event.setTime (e : Event) (t : ℚ) : Event × Option Err :=
  if e.dependencies = [] then ({ e with stored_time := t }, none)
  else (e, some (Err.cadet "Cannot set time for dependent events"))

/-- Replace the entity named `n` in the registry (Python mutates the
`Event` object in place; both lists hold references to it). -/
def mapEntity (h : EventHandler) (n : String) (f : Event → Event) :
    EventHandler :=
  { h with
    events := h.events.map (fun e => if e.name = n then f e else e),
    durations := h.durations.map (fun e => if e.name = n then f e else e) }

/-- `handler.<n>.time = t`: look the entity up by name and run the
`time` setter on it in place. -/
def setEventTime (h : EventHandler) (n : String) (t : ℚ) :
    EventHandler × Option Err :=
  match lookupEntity h n with
  | none => (h, some Err.keyError)
  | some e =>
    match e.setTime t with
    | (e', none) => (mapEntity h n (fun _ => e'), none)
    | (_, some err) => (h, some err)

/-- Independent event `X` of the two-dependency example. -/
def eX (x : ℚ) : Event := ⟨"X", "p", x, 0, [], []⟩

/-- Independent event `Y` of the two-dependency example. -/
def eY (y : ℚ) : Event := ⟨"Y", "p", y, 0, [], []⟩

/-- Dependent event `D` with dependencies `[X, Y]` and factors
`[1, -1]`. -/
def eD : Event := ⟨"D", "p", 0, 0, ["X", "Y"], [1, -1]⟩

/-- Registry holding `X`, `Y` and `D`, with `cycle_time = 10`. -/
def hXY (x y : ℚ) : EventHandler := ⟨10, [eX x, eY y, eD], []⟩

/-- C1: reading a dependent event's `time` returns the factor-weighted
sum of its dependencies' recursively resolved times, modulo
`cycle_time`; with dependencies `[X, Y]` and factors `[1, -1]` this is
`(X.time - Y.time) mod cycle_time`, and after setting `X`'s time
through the `time` setter a subsequent read reflects the change with no
recomputation call. -/
theorem C1_dependent_time_resolution :
    (∀ (h : EventHandler) (fuel : Nat) (e : Event) (ts : List ℚ),
      e.dependencies ≠ [] →
      timeList h fuel e.dependencies = some ts →
      timeR h (fuel + 1) e = some (pymod (dot ts e.factors) h.cycle_time)) ∧
    (∀ x y : ℚ,
      timeR (hXY x y) 2 eD =
        some (pymod (pymod x 10 - pymod y 10) 10)) ∧
    (∀ x y t : ℚ,
      setEventTime (hXY x y) "X" t = (hXY t y, none) ∧
      timeR (setEventTime (hXY x y) "X" t).1 2 eD =
        some (pymod (pymod t 10 - pymod y 10) 10)) := by
  have hgen : ∀ (h : EventHandler) (fuel : Nat) (e : Event) (ts : List ℚ),
      e.dependencies ≠ [] →
      timeList h fuel e.dependencies = some ts →
      timeR h (fuel + 1) e = some (pymod (dot ts e.factors) h.cycle_time) := by
    intro h fuel e ts hdep hts
    unfold timeR
    simp [hdep, hts]
  have hres : ∀ x y : ℚ,
      timeR (hXY x y) 2 eD =
        some (pymod (pymod x 10 - pymod y 10) 10) := by
    intro x y
    have h1 : timeList (hXY x y) 1 eD.dependencies =
        some [pymod x 10, pymod y 10] := by
      simp [timeList, timeR, lookupEntity, hXY, eX, eY, eD]
    have h2 := hgen (hXY x y) 1 eD [pymod x 10, pymod y 10]
      (by simp [eD]) h1
    rw [h2]
    have h3 : dot [pymod x 10, pymod y 10] eD.factors =
        pymod x 10 - pymod y 10 := by
      simp [dot, eD]; ring
    rw [h3]
    rfl
  refine ⟨hgen, hres, ?_⟩
  intro x y t
  have hset : setEventTime (hXY x y) "X" t = (hXY t y, none) := by
    simp [setEventTime, lookupEntity, hXY, eX, eY, eD, Event.setTime,
      mapEntity]
  exact ⟨hset, by rw [hset]; exact hres t y⟩

/-- Closed instance of `C1_dependent_time_resolution`: with
`X.time = 7`, `Y.time = 3` the dependent resolves to `4`; after setting
`X.time = 5` it resolves to `2`. -/
theorem C1_dependent_time_resolution_witness :
    timeR (hXY 7 3) 2 eD = some 4 ∧
    (setEventTime (hXY 7 3) "X" 5).1 = hXY 5 3 ∧
    timeR (setEventTime (hXY 7 3) "X" 5).1 2 eD = some 2 := by
  refine ⟨?_, ?_, ?_⟩
  · rw [C1_dependent_time_resolution.2.1 7 3]
    norm_num [pymod]
  · rw [(C1_dependent_time_resolution.2.2 7 3 5).1]
  · rw [(C1_dependent_time_resolution.2.2 7 3 5).2]
    norm_num [pymod]

/-- C4: every successfully resolved event time lies in
`[0, cycle_time)` whenever the cycle time is positive, no matter how
large or negative the stored time or the dependency-summed linear
combination is. -/
theorem C4_resolved_time_in_range (h : EventHandler) (fuel : Nat)
    (e : Event) (t : ℚ) (hct : 0 < h.cycle_time)
    (ht : timeR h fuel e = some t) :
    0 ≤ t ∧ t < h.cycle_time := by
  obtain ⟨x, hx⟩ := timeR_eq_pymod h fuel e t ht
  subst hx
  exact ⟨pymod_nonneg x hct, pymod_lt x hct⟩

/-- Closed instance of `C4_resolved_time_in_range` at a large negative
stored time: event `X` with stored time `-17` resolves to `3`. -/
theorem C4_resolved_time_in_range_witness :
    timeR (hXY (-17) 3 : EventHandler) 1 (eX (-17)) = some 3 ∧
    (0 ≤ (3 : ℚ) ∧ (3 : ℚ) < (hXY (-17) 3).cycle_time) := by
  have hres : timeR (hXY (-17) 3 : EventHandler) 1 (eX (-17)) = some 3 := by
    simp [timeR, eX, hXY]
    norm_num [pymod]
  exact ⟨hres,
    C4_resolved_time_in_range (hXY (-17) 3) 1 (eX (-17)) 3
      (by norm_num [hXY]) hres⟩

/-- Resolve the `time` of every event in a list (reading `self.events`
evaluates `evt.time` for each event). -/
def resolveTimes (h : EventHandler) (fuel : Nat) :
    List Event → Option (List ℚ)
  | [] => some []
  | e :: es =>
    match timeR h fuel e, resolveTimes h fuel es with
    | some t, some ts => some (t :: ts)
    | _, _ => none

/-- `EventHandler.event_times`: the sorted list of the distinct
resolved times of all events (`list({evt.time for evt in
self.events})` followed by `.sort()`). -/
def eventTimes (h : EventHandler) (fuel : Nat) : Option (List ℚ) :=
  match resolveTimes h fuel h.events with
  | some ts => some ts.dedup.mergeSort
  | none => none

/-- The `section_times[0] != 0` step of `EventHandler.section_times`:
prepend `0` when the first entry differs from `0`. -/
def prependZero : List ℚ → List ℚ
  | [] => []
  | t :: ts => if t ≠ 0 then 0 :: t :: ts else t :: ts

/-- The body of `EventHandler.section_times`: `[0, cycle_time]` when
there are no event times, otherwise the event times with `0` prepended
when the first entry differs from `0` and `cycle_time` appended when
the last entry differs from `cycle_time`. -/
def sectionTimesOf (ct : ℚ) : List ℚ → List ℚ
  | [] => [0, ct]
  | t :: ts =>
    if (prependZero (t :: ts)).getLast? ≠ some ct
    then prependZero (t :: ts) ++ [ct]
    else prependZero (t :: ts)

/-- `EventHandler.section_times`. -/
def sectionTimes (h : EventHandler) (fuel : Nat) : Option (List ℚ) :=
  match eventTimes h fuel with
  | some ets => some (sectionTimesOf h.cycle_time ets)
  | none => none

/-- Every entry of a successfully resolved time list is the resolved
time of one of the events. -/
theorem resolveTimes_mem (h : EventHandler) (fuel : Nat) :
    ∀ (es : List Event) (ts : List ℚ),
      resolveTimes h fuel es = some ts →
      ∀ t ∈ ts, ∃ e ∈ es, timeR h fuel e = some t := by
  intro es
  induction es with
  | nil =>
    intro ts hts t htm
    simp [resolveTimes] at hts
    subst hts
    simp at htm
  | cons e es ih =>
    intro ts hts t htm
    unfold resolveTimes at hts
    cases he : timeR h fuel e with
    | none => rw [he] at hts; simp at hts
    | some t0 =>
      cases hes : resolveTimes h fuel es with
      | none => rw [he, hes] at hts; simp at hts
      | some ts0 =>
        rw [he, hes] at hts
        simp only [Option.some.injEq] at hts
        subst hts
        rcases List.mem_cons.mp htm with rfl | h2
        · exact ⟨e, by simp, he⟩
        · obtain ⟨e', he', ht'⟩ := ih ts0 hes t h2
          exact ⟨e', by simp [he'], ht'⟩

/-- C2: for a positive cycle time, `section_times` starts at `0`, ends
at `cycle_time`, is strictly increasing and has length at least `2`;
with no events it is exactly `[0, cycle_time]`. -/
theorem C2_section_times_invariant (h : EventHandler) (fuel : Nat)
    (hct : 0 < h.cycle_time) (l : List ℚ)
    (hl : sectionTimes h fuel = some l) :
    l.head? = some 0 ∧ l.getLast? = some h.cycle_time ∧
    l.Sorted (· < ·) ∧ 2 ≤ l.length ∧
    (h.events = [] → l = [0, h.cycle_time]) := by
  set ct := h.cycle_time with hctdef
  unfold sectionTimes eventTimes at hl
  cases hres : resolveTimes h fuel h.events with
  | none => rw [hres] at hl; simp at hl
  | some ts =>
    rw [hres] at hl
    simp only [Option.some.injEq] at hl
    have hsorted : (ts.dedup.mergeSort).Sorted (· ≤ ·) :=
      List.sorted_mergeSort' _
    have hnodup : (ts.dedup.mergeSort).Nodup :=
      ((ts.dedup.mergeSort_perm _).nodup_iff).mpr ts.nodup_dedup
    have hstrict : (ts.dedup.mergeSort).Sorted (· < ·) :=
      hsorted.lt_of_le hnodup
    have hbound : ∀ t ∈ ts.dedup.mergeSort, 0 ≤ t ∧ t < ct := by
      intro t htm
      have h1 : t ∈ ts.dedup := ((ts.dedup.mergeSort_perm _).mem_iff).mp htm
      have h2 : t ∈ ts := List.mem_dedup.mp h1
      obtain ⟨e, _, he⟩ := resolveTimes_mem h fuel h.events ts hres t h2
      exact C4_resolved_time_in_range h fuel e t hct he
    have hempty : h.events = [] → ts.dedup.mergeSort = [] := by
      intro he
      rw [he] at hres
      cases ts with
      | nil => simp
      | cons a as => simp [resolveTimes] at hres
    cases hets : ts.dedup.mergeSort with
    | nil =>
      rw [hets] at hl
      have hll : l = [0, ct] := by rw [← hl]; rfl
      subst hll
      refine ⟨rfl, by simp, ?_, by simp, fun _ => rfl⟩
      simp [List.sorted_cons, hct]
    | cons t tsr =>
      rw [hets] at hl hsorted hnodup hstrict hbound hempty
      have hT : ∀ x ∈ t :: tsr, 0 ≤ x ∧ x < ct := hbound
      have hnonempty : (t :: tsr : List ℚ) ≠ [] := by simp
      have hmmem : (t :: tsr).getLast hnonempty ∈ t :: tsr :=
        List.getLast_mem hnonempty
      have hmlt : (t :: tsr).getLast hnonempty < ct :=
        (hT _ hmmem).2
      have hlast : (t :: tsr).getLast? = some ((t :: tsr).getLast hnonempty) :=
        List.getLast?_eq_getLast _ hnonempty
      have hcontr : h.events = [] → False := by
        intro he
        exact absurd (hempty he) (by simp)
      by_cases ht0 : t = 0
      · -- no 0 is prepended
        have hprep : prependZero (t :: tsr) = t :: tsr := by
          simp only [prependZero]
          rw [if_neg (not_not_intro ht0)]
        have hcond : (t :: tsr).getLast? ≠ some ct := by
          rw [hlast]
          simp [hmlt.ne]
        have hs : sectionTimesOf ct (t :: tsr) = (t :: tsr) ++ [ct] := by
          simp only [sectionTimesOf]
          rw [hprep, if_pos hcond]
        rw [hs] at hl
        subst hl
        have hsrt : ((t :: tsr) ++ [ct]).Sorted (· < ·) := by
          rw [List.Sorted, List.pairwise_append]
          refine ⟨hstrict, by simp, ?_⟩
          intro a ha b hb
          simp at hb
          subst hb
          exact (hT a ha).2
        refine ⟨by simp [ht0], ?_, hsrt, ?_, fun he => (hcontr he).elim⟩
        · rw [List.getLast?_concat]
        · simp
      · -- 0 is prepended
        have hprep : prependZero (t :: tsr) = 0 :: t :: tsr := by
          simp only [prependZero]
          rw [if_pos ht0]
        have hlast2 : (0 :: t :: tsr : List ℚ).getLast? =
            some ((t :: tsr).getLast hnonempty) := by
          rw [List.getLast?_cons_cons]
          exact hlast
        have hcond : (0 :: t :: tsr : List ℚ).getLast? ≠ some ct := by
          rw [hlast2]
          simp [hmlt.ne]
        have hs : sectionTimesOf ct (t :: tsr) = (0 :: t :: tsr) ++ [ct] := by
          simp only [sectionTimesOf]
          rw [hprep, if_pos hcond]
        rw [hs] at hl
        subst hl
        have hpos : ∀ x ∈ t :: tsr, 0 < x := by
          intro x hx
          rcases List.mem_cons.mp hx with rfl | hx'
          · exact lt_of_le_of_ne (hT x (by simp)).1 (Ne.symm ht0)
          · have h1 : 0 ≤ t := (hT t (by simp)).1
            have h2 : t < x := (List.sorted_cons.mp hstrict).1 x hx'
            linarith
        have hsrt : ((0 :: t :: tsr) ++ [ct]).Sorted (· < ·) := by
          rw [List.Sorted, List.pairwise_append]
          refine ⟨?_, by simp, ?_⟩
          · rw [List.pairwise_cons]
            exact ⟨hpos, hstrict⟩
          · intro a ha b hb
            simp at hb
            subst hb
            rcases List.mem_cons.mp ha with rfl | ha'
            · exact hct
            · exact (hT a ha').2
        refine ⟨by simp, ?_, hsrt, ?_, fun he => (hcontr he).elim⟩
        · rw [List.getLast?_concat]
        · simp

/-- Concrete registry for the `section_times` witness: two independent
events at times `2` and `5`, `cycle_time = 10`. -/
def hC2 : EventHandler :=
  ⟨10, [⟨"A", "p", 2, 1, [], []⟩, ⟨"B", "p", 5, 2, [], []⟩], []⟩

/-- Closed instance of `C2_section_times_invariant` on `hC2`:
`section_times = [0, 2, 5, 10]` with all the claimed properties. -/
theorem C2_section_times_invariant_witness :
    sectionTimes hC2 1 = some [0, 2, 5, 10] ∧
    ([0, 2, 5, 10] : List ℚ).head? = some 0 ∧
    ([0, 2, 5, 10] : List ℚ).getLast? = some hC2.cycle_time ∧
    ([0, 2, 5, 10] : List ℚ).Sorted (· < ·) := by
  have h1 : resolveTimes hC2 1 hC2.events = some [2, 5] := by
    simp [hC2, resolveTimes, timeR]
    norm_num [pymod]
  have h2 : ([2, 5] : List ℚ).dedup.mergeSort = [2, 5] := by
    have hd : ([2, 5] : List ℚ).dedup = [2, 5] := by decide
    rw [hd]
    exact List.mergeSort_eq_self (by decide)
  have hs : sectionTimes hC2 1 = some [0, 2, 5, 10] := by
    unfold sectionTimes eventTimes
    rw [h1]
    simp only [Option.map_some, Option.map_map]
    show some (sectionTimesOf hC2.cycle_time (([2, 5] : List ℚ).dedup.mergeSort)) = _
    rw [h2]
    norm_num [sectionTimesOf, prependZero, hC2]
  have hmain := C2_section_times_invariant hC2 1 (by norm_num [hC2])
    [0, 2, 5, 10] hs
  exact ⟨hs, hmain.1, hmain.2.1, hmain.2.2.1⟩

/-- Modelled from the spec: `Section` / `PolynomialSection` and
`TimeLine` live in a module that is not among the sources at hand;
per the spec a section covers the half-open interval `[start, stop)`
with one state, and `TimeLine.add_section` collects the sections of a
timeline in the order they are added.  The polynomial flag only selects
the section class, never the boundaries or the stored state, so one
record covers both. -/
structure Sec where
  start : ℚ
  stop : ℚ
  state : ℚ
deriving DecidableEq, Repr

/-- Pair every event of a list with its resolved time (sorting in
`EventHandler.events` evaluates `evt.time` as the key of each event). -/
def resolvePairs (h : EventHandler) (fuel : Nat) :
    List Event → Option (List (Event × ℚ))
  | [] => some []
  | e :: es =>
    match timeR h fuel e, resolvePairs h fuel es with
    | some t, some ps => some ((e, t) :: ps)
    | _, _ => none

/-- `EventHandler.events`: all events sorted by resolved time
(`sorted` is stable, so ties keep insertion order; `mergeSort` is
stable as well). -/
def sortedEvents (h : EventHandler) (fuel : Nat) : Option (List Event) :=
  match resolvePairs h fuel h.events with
  | some ps =>
    some ((ps.mergeSort (fun a b => decide (a.2 ≤ b.2))).map Prod.fst)
  | none => none

/-- The section-building loop of `EventHandler.parameter_timelines`
over the (resolved time, state) pairs of one parameter's events:
every consecutive pair contributes `[t_i, t_(i+1))` with state `s_i`;
the last event contributes `[t_last, cycle_time)` with its state and,
when the first event's time is nonzero, the wrap-around section
`[0, t_first)` also holding the last state. -/
def sectionsAux (ct first : ℚ) : List (ℚ × ℚ) → List Sec
  | [] => []
  | [(t, s)] =>
    (⟨t, ct, s⟩ : Sec) :: (if first ≠ 0 then [⟨0, first, s⟩] else [])
  | (t, s) :: p :: rest => ⟨t, p.1, s⟩ :: sectionsAux ct first (p :: rest)

/-- The sections produced for one parameter (`first` is the resolved
time of the first event, `events[0].time`). -/
def sectionsOf (ct : ℚ) (ps : List (ℚ × ℚ)) : List Sec :=
  match ps with
  | [] => []
  | (t, _) :: _ => sectionsAux ct t ps

/-- `EventHandler.parameter_timelines[p]`: the events are taken in
time-sorted order, restricted to parameter path `p` (the grouping loop
preserves the sorted order), and fed to the section builder. -/
def parameterTimeline (h : EventHandler) (fuel : Nat) (p : String) :
    Option (List Sec) :=
  match sortedEvents h fuel with
  | none => none
  | some evts =>
    match resolvePairs h fuel
        (evts.filter (fun e => decide (e.parameter_path = p))) with
    | none => none
    | some ps =>
      some (sectionsOf h.cycle_time (ps.map (fun q => (q.2, q.1.state))))

/-- Closed form of the section-building loop on a non-empty list of
(time, state) pairs. -/
theorem sectionsAux_eq (ct first : ℚ) :
    ∀ (ps : List (ℚ × ℚ)) (hne : ps ≠ []),
      sectionsAux ct first ps =
        ((ps.zip ps.tail).map
          (fun q => (⟨q.1.1, q.2.1, q.1.2⟩ : Sec))) ++
        [⟨(ps.getLast hne).1, ct, (ps.getLast hne).2⟩] ++
        (if first ≠ 0 then [⟨0, first, (ps.getLast hne).2⟩] else []) := by
  intro ps
  induction ps with
  | nil => intro hne; exact absurd rfl hne
  | cons x rest ih =>
    intro hne
    cases rest with
    | nil =>
      obtain ⟨t, s⟩ := x
      simp [sectionsAux]
    | cons y rest2 =>
      obtain ⟨t, s⟩ := x
      have hne2 : (y :: rest2 : List (ℚ × ℚ)) ≠ [] := by simp
      have hstep : sectionsAux ct first ((t, s) :: y :: rest2) =
          (⟨t, y.1, s⟩ : Sec) :: sectionsAux ct first (y :: rest2) := by
        simp [sectionsAux]
      rw [hstep, ih hne2]
      have hgl : ((t, s) :: y :: rest2).getLast hne =
          (y :: rest2).getLast hne2 := List.getLast_cons_cons _ _ _
      rw [hgl]
      simp

/-- Rewriting helper: `sortedEvents` once the pairs resolve. -/
theorem sortedEvents_some {h : EventHandler} {fuel : Nat}
    {ps : List (Event × ℚ)}
    (hres : resolvePairs h fuel h.events = some ps) :
    sortedEvents h fuel =
      some ((ps.mergeSort (fun a b => decide (a.2 ≤ b.2))).map Prod.fst) := by
  unfold sortedEvents
  rw [hres]

/-- Rewriting helper: `parameterTimeline` once the sort and the pair
resolution succeed. -/
theorem parameterTimeline_some {h : EventHandler} {fuel : Nat} {p : String}
    {evts : List Event} {ps : List (Event × ℚ)}
    (h1 : sortedEvents h fuel = some evts)
    (h2 : resolvePairs h fuel
      (evts.filter (fun e => decide (e.parameter_path = p))) = some ps) :
    parameterTimeline h fuel p =
      some (sectionsOf h.cycle_time (ps.map (fun q => (q.2, q.1.state)))) := by
  unfold parameterTimeline
  rw [h1]
  show (match resolvePairs h fuel
      (evts.filter (fun e => decide (e.parameter_path = p))) with
    | none => none
    | some qs =>
      some (sectionsOf h.cycle_time
        (qs.map (fun q => (q.2, q.1.state)))) : Option (List Sec)) =
    some (sectionsOf h.cycle_time (ps.map (fun q => (q.2, q.1.state))))
  rw [h2]

/-- First example event of the three-event timeline scenario. -/
def e1 (a : ℚ) : Event := ⟨"E1", "p", 2, a, [], []⟩

/-- Second example event of the three-event timeline scenario. -/
def e2 (b : ℚ) : Event := ⟨"E2", "p", 5, b, [], []⟩

/-- Third example event of the three-event timeline scenario. -/
def e3 (c : ℚ) : Event := ⟨"E3", "p", 8, c, [], []⟩

/-- Registry with three events on path `"p"` at times `2, 5, 8` and
`cycle_time = 10`. -/
def hC3 (a b c : ℚ) : EventHandler := ⟨10, [e1 a, e2 b, e3 c], []⟩

/-- C3: `parameter_timelines` builds one section
`[evt_i.time, evt_(i+1).time)` with `evt_i.state` for each consecutive
pair of the time-ordered events of a path, a final section
`[last.time, cycle_time)` with `last.state`, and a wrap-around section
`[0, first.time)` with the *last* event's state exactly when the first
event's time is nonzero; events at times `[2, 5, 8]` with states
`[a, b, c]` and `cycle_time = 10` yield `[0,2)→c`, `[2,5)→a`,
`[5,8)→b`, `[8,10)→c`. -/
theorem C3_parameter_timelines_sections :
    (∀ (ct : ℚ) (ps : List (ℚ × ℚ)) (hne : ps ≠ []),
      sectionsOf ct ps =
        ((ps.zip ps.tail).map
          (fun q => (⟨q.1.1, q.2.1, q.1.2⟩ : Sec))) ++
        [⟨(ps.getLast hne).1, ct, (ps.getLast hne).2⟩] ++
        (if (ps.head hne).1 ≠ 0 then
          [⟨0, (ps.head hne).1, (ps.getLast hne).2⟩] else [])) ∧
    (∀ a b c : ℚ,
      parameterTimeline (hC3 a b c) 1 "p" =
        some [⟨2, 5, a⟩, ⟨5, 8, b⟩, ⟨8, 10, c⟩, ⟨0, 2, c⟩] ∧
      ([⟨2, 5, a⟩, ⟨5, 8, b⟩, ⟨8, 10, c⟩, ⟨0, 2, c⟩] : List Sec).Perm
        [⟨0, 2, c⟩, ⟨2, 5, a⟩, ⟨5, 8, b⟩, ⟨8, 10, c⟩]) := by
  constructor
  · intro ct ps hne
    cases ps with
    | nil => exact absurd rfl hne
    | cons x rest =>
      obtain ⟨t, s⟩ := x
      have h1 : sectionsOf ct ((t, s) :: rest) =
          sectionsAux ct t ((t, s) :: rest) := by
        simp [sectionsOf]
      rw [h1, sectionsAux_eq ct t ((t, s) :: rest) hne]
      rfl
  · intro a b c
    constructor
    · have hres : resolvePairs (hC3 a b c) 1 (hC3 a b c).events =
          some [(e1 a, 2), (e2 b, 5), (e3 c, 8)] := by
        simp [hC3, e1, e2, e3, resolvePairs, timeR]
        norm_num [pymod]
      have hsortpairs : ([(e1 a, 2), (e2 b, 5), (e3 c, 8)] :
            List (Event × ℚ)).mergeSort (fun q r => decide (q.2 ≤ r.2)) =
          [(e1 a, 2), (e2 b, 5), (e3 c, 8)] := by
        apply List.mergeSort_of_sorted
        simp
        norm_num
      have hsorted : sortedEvents (hC3 a b c) 1 =
          some [e1 a, e2 b, e3 c] := by
        rw [sortedEvents_some hres, hsortpairs]
        rfl
      have hfil : ([e1 a, e2 b, e3 c] : List Event).filter
            (fun e => decide (e.parameter_path = "p")) =
          [e1 a, e2 b, e3 c] := by
        simp [List.filter, e1, e2, e3]
      have hres2 : resolvePairs (hC3 a b c) 1
            (([e1 a, e2 b, e3 c] : List Event).filter
              (fun e => decide (e.parameter_path = "p"))) =
          some [(e1 a, 2), (e2 b, 5), (e3 c, 8)] := by
        rw [hfil]
        simp [hC3, e1, e2, e3, resolvePairs, timeR]
        norm_num [pymod]
      rw [parameterTimeline_some hsorted hres2]
      simp only [List.map_cons, List.map_nil]
      norm_num [hC3, e1, e2, e3, sectionsOf, sectionsAux]
    · simpa using
        List.perm_append_singleton (⟨0, 2, c⟩ : Sec)
          [⟨2, 5, a⟩, ⟨5, 8, b⟩, ⟨8, 10, c⟩]

/-- Closed instance of `C3_parameter_timelines_sections` at times
`[2, 5, 8]`, states `[1, 2, 3]`, `cycle_time = 10`. -/
theorem C3_parameter_timelines_sections_witness :
    sectionsOf 10 [(2, 1), (5, 2), (8, 3)] =
      [⟨2, 5, 1⟩, ⟨5, 8, 2⟩, ⟨8, 10, 3⟩, ⟨0, 2, 3⟩] ∧
    parameterTimeline (hC3 1 2 3) 1 "p" =
      some [⟨2, 5, 1⟩, ⟨5, 8, 2⟩, ⟨8, 10, 3⟩, ⟨0, 2, 3⟩] := by
  constructor
  · rw [C3_parameter_timelines_sections.1 10 [(2, 1), (5, 2), (8, 3)]
      (by simp)]
    norm_num
  · exact (C3_parameter_timelines_sections.2 1 2 3).1

/-- `Event.add_dependency`: raise on a duplicate dependency, otherwise
append the (dependency, factor) pair to the two parallel lists. -/
def Event.add_dependency (e : Event) (dep : String) (factor : ℚ) :
    Event × Option Err :=
  if dep ∈ e.dependencies then
    (e, some (Err.cadet "Dependency already exists"))
  else
    ({ e with dependencies := e.dependencies ++ [dep],
              factors := e.factors ++ [factor] }, none)

/-- The attach loop of `EventHandler.add_event_dependency`: look up the
dependent once per step (Python mutates a single object in place; with
unique names this is the entity registered under `evtName`) and attach
each (independent, factor) pair in turn, stopping at the first raised
exception with the partially updated registry. -/
def attachLoop (evtName : String) :
    EventHandler → List (String × ℚ) → EventHandler × Option Err
  | h, [] => (h, none)
  | h, (n, f) :: rest =>
    match lookupEntity h evtName with
    | none => (h, some Err.keyError)
    | some evt =>
      match evt.add_dependency n f with
      | (_, some err) => (h, some err)
      | (evt', none) =>
        attachLoop evtName (mapEntity h evtName (fun _ => evt')) rest

/-- The factors default of `add_event_dependency`: `[1]*len(...)` when
`factors is None`. -/
def defaultFactors (independents : List String)
    (factors : Option (List ℚ)) : List ℚ :=
  match factors with
  | none => List.replicate independents.length 1
  | some fs => fs

/-- `EventHandler.add_event_dependency`: resolve the dependent name,
check that every independent name is registered, default the factors to
`1`s, check the lengths, then run the attach loop. -/
def addEventDependency (h : EventHandler) (dependent : String)
    (independents : List String) (factors : Option (List ℚ)) :
    EventHandler × Option Err :=
  match lookupEntity h dependent with
  | none => (h, some (Err.cadet "Cannot find dependent Event"))
  | some _ =>
    if ¬ independents.all (fun n => (lookupEntity h n).isSome) then
      (h, some (Err.cadet "Cannot find one or more independent events"))
    else if (defaultFactors independents factors).length ≠
        independents.length then
      (h, some (Err.cadet
        "Length of factors must be equal to length of independent Events"))
    else
      attachLoop dependent h
        (independents.zip (defaultFactors independents factors))

/-- `Event.remove_dependency` as written in the source: the membership
check is inverted (`if dependency in self._dependencies: raise
CADETProcessError("Dependency not found")`), and the fall-through line
`index = self._dependencies(dependency)` *calls* the list object, which
raises `TypeError`.  No branch ever deletes the pair. -/
def Event.remove_dependency (e : Event) (dep : String) :
    Event × Option Err :=
  if dep ∈ e.dependencies then
    (e, some (Err.cadet "Dependency not found"))
  else
    (e, some Err.typeError)

/-- Python `==` between a `str` and an `Event`: `Event` defines no
`__eq__`, so the comparison falls back to identity and is always
`False`. -/
def strEqEvent (_n : String) (_e : Event) : Bool := false

/-- `dependent_event not in self.events` in
`EventHandler.remove_event_dependency` compares the dependent *name*
against the `Event` objects of the sorted event list. -/
def strInEvents (n : String) (evts : List Event) : Bool :=
  evts.any (fun e => strEqEvent n e)

/-- `EventHandler.remove_event_dependency`.  The first guard tests the
name string for membership in the list of `Event` objects; when it
(never) passes, the loop body would index the event list with a string
(`self.events[dependent_event]`), raising `TypeError`. -/
def removeEventDependency (h : EventHandler) (dependent : String)
    (independents : List String) : EventHandler × Option Err :=
  if ¬ strInEvents dependent h.events then
    (h, some (Err.cadet "Cannot find dependent Event"))
  else if ¬ independents.all (fun n => (lookupEntity h n).isSome) then
    (h, some (Err.cadet "Cannot find one or more independent events"))
  else
    (h, some Err.typeError)

/-- The external nested parameter store of the process model, keyed by
parameter path. -/
abbrev Store : Type := List (String × ℚ)

/-- Modelled from the spec: `set(path, value)` on the external nested
parameter store (owned by the `EventHandler` subclass, which is not
among the sources at hand): overwrite the entry at the path, or create
it. -/
def storeSet (st : Store) (p : String) (v : ℚ) : Store :=
  if (List.any st (fun kv => kv.1 = p)) then
    List.map (fun kv => if kv.1 = p then (kv.1, v) else kv) st
  else
    List.append st [(p, v)]

/-- The `Event.state` setter (for events without `component_index`):
write the value through to the external store at `parameter_path`, then
read it back into `_state`; reading back the just-written path returns
the written value. -/
def Event.setState (e : Event) (st : Store) (v : ℚ) : Event × Store :=
  ({ e with state := v }, storeSet st e.parameter_path v)

/-- The `Event.parameters` getter resolved against the handler:
`{'time': resolved time, 'state': state}` for an `Event`,
`{'time': resolved time}` for a `Duration` (`_parameters = ['time']`).
The getter is only reached for independent entities, whose resolved
time is `stored_time mod cycle_time`. -/
def entityParamsGet (h : EventHandler) (isDur : Bool) (e : Event) :
    List (String × ℚ) :=
  if isDur then [("time", pymod e.stored_time h.cycle_time)]
  else [("time", pymod e.stored_time h.cycle_time), ("state", e.state)]

/-- The `Event.parameters` setter on a dict argument: each key must be
one of the entity's `_parameters` (`time`, and `state` for non-Duration
events), and is assigned through the corresponding property setter;
the first invalid key or failing setter raises, keeping the assignments
already made. -/
def entityParamsSet (isDur : Bool) :
    Event → Store → List (String × ℚ) → (Event × Store) × Option Err
  | e, st, [] => ((e, st), none)
  | e, st, (param, v) :: rest =>
    if param = "time" then
      match e.setTime v with
      | (e', none) => entityParamsSet isDur e' st rest
      | (_, some err) => ((e, st), some err)
    else if param = "state" ∧ isDur = false then
      match e.setState st v with
      | (e', st') => entityParamsSet isDur e' st' rest
    else
      ((e, st), some (Err.cadet "Not a valid parameter"))

/-- The `EventHandler.parameters` getter: name-keyed parameters of the
independent events (in time-sorted order) and independent durations,
plus `cycle_time`. -/
def handlerParamsGet (h : EventHandler) (fuel : Nat) :
    Option (List (String × List (String × ℚ)) × ℚ) :=
  match sortedEvents h fuel with
  | none => none
  | some evts =>
    some
      (((evts.filter (fun e => e.dependencies.isEmpty)).map
          (fun e => (e.name, entityParamsGet h false e))) ++
        ((h.durations.filter (fun e => e.dependencies.isEmpty)).map
          (fun e => (e.name, entityParamsGet h true e))),
        h.cycle_time)

/-- The per-entity loop of the `EventHandler.parameters` setter.  The
name lookup `self.events_dict[evt_name]` raises `KeyError` for an
unregistered name — the surrounding `try` only catches
`AttributeError`, so the `KeyError` escapes instead of becoming
`CADETProcessError('Not a valid event')`.  A registered entity that is
not an independent event or independent duration raises
`CADETProcessError('... is not a valid event')`. -/
def applyEntityParams :
    EventHandler → Store → List (String × List (String × ℚ)) →
    (EventHandler × Store) × Option Err
  | h, st, [] => ((h, st), none)
  | h, st, (n, ps) :: rest =>
    match lookupEntity h n with
    | none => ((h, st), some Err.keyError)
    | some evt =>
      if evt ∈ h.events.filter (fun e => e.dependencies.isEmpty) ++
          h.durations.filter (fun e => e.dependencies.isEmpty) then
        match entityParamsSet (decide (evt ∈ h.durations)) evt st ps with
        | ((evt', st'), none) =>
          applyEntityParams (mapEntity h n (fun _ => evt')) st' rest
        | ((evt', st'), some err) =>
          ((mapEntity h n (fun _ => evt'), st'), some err)
      else
        ((h, st), some (Err.cadet "is not a valid event"))

/-- The `EventHandler.parameters` setter: restore `cycle_time` first
when present in the input, then apply each entity's parameters. -/
def handlerParamsSet (h : EventHandler) (st : Store) (ct : Option ℚ)
    (ps : List (String × List (String × ℚ))) :
    (EventHandler × Store) × Option Err :=
  let h1 := match ct with
    | some v => { h with cycle_time := v }
    | none => h
  applyEntityParams h1 st ps

/-- C10: `remove_event_dependency` always raises the cannot-find error
because the guard tests the name string for membership in a list of
`Event` objects, and never removes a dependency edge. -/
theorem C10_remove_event_dependency_always_fails (h : EventHandler)
    (dependent : String) (independents : List String) :
    removeEventDependency h dependent independents =
      (h, some (Err.cadet "Cannot find dependent Event")) := by
  unfold removeEventDependency
  simp [strInEvents, strEqEvent]

/-- C6 (resolved against the code as written): `remove_dependency`
raises `CADETProcessError("Dependency not found")` exactly when the
dependency *is* present, raises `TypeError` when it is absent, and in
both cases leaves the event unchanged — it never removes the pair. -/
theorem C6_remove_dependency_inverted (e : Event) (dep : String) :
    (dep ∈ e.dependencies →
      e.remove_dependency dep =
        (e, some (Err.cadet "Dependency not found"))) ∧
    (dep ∉ e.dependencies →
      e.remove_dependency dep = (e, some Err.typeError)) := by
  constructor
  · intro hmem
    unfold Event.remove_dependency
    rw [if_pos hmem]
  · intro hmem
    unfold Event.remove_dependency
    rw [if_neg hmem]

/-- Closed instance of `C6_remove_dependency_inverted`: removing the
present dependency `"A"` raises the not-found error. -/
theorem C6_remove_dependency_inverted_witness :
    Event.remove_dependency ⟨"D", "p", 0, 0, ["A"], [1]⟩ "A" =
      (⟨"D", "p", 0, 0, ["A"], [1]⟩,
        some (Err.cadet "Dependency not found")) ∧
    Event.remove_dependency ⟨"D", "p", 0, 0, ["A"], [1]⟩ "B" =
      (⟨"D", "p", 0, 0, ["A"], [1]⟩, some Err.typeError) := by
  constructor
  · exact (C6_remove_dependency_inverted _ "A").1 (by decide)
  · exact (C6_remove_dependency_inverted _ "B").2 (by decide)

/-- C7: assigning any numeric value to a dependent event's `time`
raises `CannotSetDependentTime` and leaves the event — hence its
resolved time and stored state — unchanged, at the event level and
through the registry. -/
theorem C7_set_dependent_time_fails (e : Event) (t : ℚ)
    (hdep : e.dependencies ≠ []) :
    e.setTime t =
      (e, some (Err.cadet "Cannot set time for dependent events")) ∧
    (∀ (h : EventHandler) (n : String), lookupEntity h n = some e →
      setEventTime h n t =
        (h, some (Err.cadet "Cannot set time for dependent events"))) ∧
    (∀ (h : EventHandler) (fuel : Nat),
      timeR h fuel (e.setTime t).1 = timeR h fuel e) ∧
    (e.setTime t).1.state = e.state := by
  have h1 : e.setTime t =
      (e, some (Err.cadet "Cannot set time for dependent events")) := by
    unfold Event.setTime
    rw [if_neg hdep]
  refine ⟨h1, ?_, ?_, by rw [h1]⟩
  · intro h n hln
    unfold setEventTime
    rw [hln]
    show (match e.setTime t with
      | (e', none) => (mapEntity h n (fun _ => e'), none)
      | (_, some err) => (h, some err) : EventHandler × Option Err) =
      (h, some (Err.cadet "Cannot set time for dependent events"))
    rw [h1]
  · intro h fuel
    rw [h1]

/-- Closed instance of `C7_set_dependent_time_fails` at the dependent
event `D`. -/
theorem C7_set_dependent_time_fails_witness :
    eD.setTime 5 =
      (eD, some (Err.cadet "Cannot set time for dependent events")) ∧
    (eD.setTime 5).1.state = eD.state := by
  have h := C7_set_dependent_time_fails eD 5 (by decide)
  exact ⟨h.1, h.2.2.2⟩

/-- `find?` by name over an in-place replacement at that name. -/
theorem find?_name_map (n : String) (e' : Event) (hn : e'.name = n) :
    ∀ l : List Event,
      (l.map (fun e => if e.name = n then e' else e)).find?
          (fun e => e.name = n) =
        (l.find? (fun e => e.name = n)).map (fun _ => e') := by
  intro l
  induction l with
  | nil => simp
  | cons x xs ih =>
    by_cases hx : x.name = n
    · rw [List.map_cons, if_pos hx]
      rw [List.find?_cons_of_pos _ (by simp [hn]),
        List.find?_cons_of_pos _ (by simp [hx])]
      simp
    · rw [List.map_cons, if_neg hx]
      rw [List.find?_cons_of_neg _ (by simp [hx]),
        List.find?_cons_of_neg _ (by simp [hx])]
      exact ih

/-- An entity found by `lookupEntity` carries the looked-up name. -/
theorem lookupEntity_name {h : EventHandler} {n : String} {e : Event}
    (hl : lookupEntity h n = some e) : e.name = n := by
  unfold lookupEntity at hl
  cases hd : h.durations.find? (fun x => x.name = n) with
  | some d =>
    rw [hd] at hl
    simp only [Option.some.injEq] at hl
    subst hl
    simpa using List.find?_some hd
  | none =>
    rw [hd] at hl
    simpa using List.find?_some hl

/-- Looking up `n` after replacing the entity at `n` with `e'` (where
`e'` keeps the name `n`). -/
theorem lookupEntity_mapEntity (h : EventHandler) (n : String) (e' : Event)
    (hn : e'.name = n) :
    lookupEntity (mapEntity h n (fun _ => e')) n =
      (lookupEntity h n).map (fun _ => e') := by
  unfold lookupEntity mapEntity
  simp only
  rw [find?_name_map n e' hn h.durations, find?_name_map n e' hn h.events]
  cases h.durations.find? (fun x => x.name = n) with
  | some d => simp
  | none => simp

/-- Step equation of the attach loop when the dependency is already
present: the duplicate raise, with the registry as accumulated. -/
theorem attachLoop_step_dup {evtName n : String} {f : ℚ}
    {rest : List (String × ℚ)} {h : EventHandler} {evt : Event}
    (hl : lookupEntity h evtName = some evt)
    (hdup : n ∈ evt.dependencies) :
    attachLoop evtName h ((n, f) :: rest) =
      (h, some (Err.cadet "Dependency already exists")) := by
  unfold attachLoop
  rw [hl]
  show (match evt.add_dependency n f with
    | (_, some err) => (h, some err)
    | (evt', none) =>
      attachLoop evtName (mapEntity h evtName (fun _ => evt')) rest :
    EventHandler × Option Err) = _
  rw [show evt.add_dependency n f =
      (evt, some (Err.cadet "Dependency already exists")) from by
    unfold Event.add_dependency
    rw [if_pos hdup]]

/-- Step equation of the attach loop when the dependency is new: the
pair is appended and the loop continues on the updated registry. -/
theorem attachLoop_step_ok {evtName n : String} {f : ℚ}
    {rest : List (String × ℚ)} {h : EventHandler} {evt : Event}
    (hl : lookupEntity h evtName = some evt)
    (hdup : n ∉ evt.dependencies) :
    attachLoop evtName h ((n, f) :: rest) =
      attachLoop evtName
        (mapEntity h evtName
          (fun _ => { evt with dependencies := evt.dependencies ++ [n],
                               factors := evt.factors ++ [f] })) rest := by
  conv_lhs => unfold attachLoop
  rw [hl]
  show (match evt.add_dependency n f with
    | (_, some err) => (h, some err)
    | (evt', none) =>
      attachLoop evtName (mapEntity h evtName (fun _ => evt')) rest :
    EventHandler × Option Err) = _
  rw [show evt.add_dependency n f =
      ({ evt with dependencies := evt.dependencies ++ [n],
                  factors := evt.factors ++ [f] }, none) from by
    unfold Event.add_dependency
    rw [if_neg hdup]]

/-- Once the dependent name resolves, the only exception the attach
loop can raise is the duplicate-dependency one. -/
theorem attachLoop_err (evtName : String) :
    ∀ (ps : List (String × ℚ)) (h : EventHandler) (er : Err),
      (lookupEntity h evtName).isSome →
      (attachLoop evtName h ps).2 = some er →
      er = Err.cadet "Dependency already exists" := by
  intro ps
  induction ps with
  | nil =>
    intro h er _ her
    simp [attachLoop] at her
  | cons q rest ih =>
    intro h er hsome her
    obtain ⟨n, f⟩ := q
    cases hl : lookupEntity h evtName with
    | none => rw [hl] at hsome; simp at hsome
    | some evt =>
      by_cases hdup : n ∈ evt.dependencies
      · rw [attachLoop_step_dup hl hdup] at her
        simpa using her.symm
      · rw [attachLoop_step_ok hl hdup] at her
        refine ih _ er ?_ her
        rw [lookupEntity_mapEntity h evtName _
          (by simpa using lookupEntity_name hl), hl]
        rfl

/-- Unfolding equation of `addEventDependency` when the dependent name
resolves. -/
theorem addEventDependency_some {h : EventHandler} {dependent : String}
    {independents : List String} {factors : Option (List ℚ)} {evt : Event}
    (hl : lookupEntity h dependent = some evt) :
    addEventDependency h dependent independents factors =
      if ¬ independents.all (fun n => (lookupEntity h n).isSome) then
        (h, some (Err.cadet "Cannot find one or more independent events"))
      else if (defaultFactors independents factors).length ≠
          independents.length then
        (h, some (Err.cadet
          "Length of factors must be equal to length of independent Events"))
      else
        attachLoop dependent h
          (independents.zip (defaultFactors independents factors)) := by
  conv_lhs => unfold addEventDependency
  rw [hl]

/-- Registry with two independent events `A` and `D` for the
dependency-attachment scenarios. -/
def h5 : EventHandler :=
  ⟨10, [⟨"A", "p", 1, 0, [], []⟩, ⟨"D", "p", 2, 0, [], []⟩], []⟩

/-- C5 counterexample: `add_event_dependency` on `h5` with independents
`["A", "A"]` raises the duplicate-dependency error *after* the first
pair was attached, so a raising call has changed the registry. -/
theorem C5_partial_commit_counterexample :
    (addEventDependency h5 "D" ["A", "A"] none).2 =
      some (Err.cadet "Dependency already exists") ∧
    (addEventDependency h5 "D" ["A", "A"] none).1 =
      ⟨10, [⟨"A", "p", 1, 0, [], []⟩, ⟨"D", "p", 2, 0, ["A"], [1]⟩], []⟩ ∧
    (addEventDependency h5 "D" ["A", "A"] none).1 ≠ h5 := by
  refine ⟨?_, ?_, ?_⟩ <;> decide

/-- C5 amended: the dependent name, every independent name and the
factors length are validated before any edge is attached, so a raise
from these checks leaves the registry unchanged; the only exception
that can leave a partially updated registry is the
duplicate-dependency raise inside the attach loop. -/
theorem C5_prechecks_before_attach (h : EventHandler) (dependent : String)
    (independents : List String) (factors : Option (List ℚ)) (er : Err)
    (her : (addEventDependency h dependent independents factors).2 =
      some er) :
    er = Err.cadet "Dependency already exists" ∨
      (addEventDependency h dependent independents factors).1 = h := by
  cases hl : lookupEntity h dependent with
  | none =>
    right
    conv_lhs => unfold addEventDependency
    rw [hl]
  | some evt =>
    rw [addEventDependency_some hl] at her ⊢
    by_cases hall : independents.all (fun n => (lookupEntity h n).isSome)
    · rw [if_neg (not_not_intro hall)] at her ⊢
      by_cases hlen : (defaultFactors independents factors).length =
          independents.length
      · rw [if_neg (not_not_intro hlen)] at her ⊢
        left
        refine attachLoop_err dependent _ h er ?_ her
        rw [hl]
        rfl
      · rw [if_pos hlen] at her ⊢
        right
        rfl
    · rw [if_pos hall] at her ⊢
      right
      rfl

/-- Closed instance of `C5_prechecks_before_attach`: an unresolvable
dependent name raises and leaves `h5` unchanged. -/
theorem C5_prechecks_before_attach_witness :
    Err.cadet "Cannot find dependent Event" =
        Err.cadet "Dependency already exists" ∨
      (addEventDependency h5 "Z" ["A"] none).1 = h5 :=
  C5_prechecks_before_attach h5 "Z" ["A"] none
    (Err.cadet "Cannot find dependent Event") (by decide)

/-- Registry with an independent event `A` and a dependent event `D`
for the parameters-setter error scenarios. -/
def h9 : EventHandler :=
  ⟨10, [⟨"A", "p", 1, 0, [], []⟩, ⟨"D", "p", 0, 0, ["A"], [1]⟩], []⟩

/-- C9 (resolved against the code as written): a key naming a
registered dependent event is rejected with
`CADETProcessError('... is not a valid event')`, but a key naming no
registered entity raises `KeyError` — `events_dict[evt_name]` raises
`KeyError` and the surrounding `except AttributeError:` clause never
catches it — instead of the claimed `CADETProcessError`. -/
theorem C9_parameters_setter_unknown_key :
    handlerParamsSet h9 [] none [("Z", [("time", 1)])] =
      ((h9, []), some Err.keyError) ∧
    handlerParamsSet h9 [] none [("D", [("time", 1)])] =
      ((h9, []), some (Err.cadet "is not a valid event")) ∧
    Err.keyError ≠ Err.cadet "is not a valid event" := by
  refine ⟨?_, ?_, ?_⟩ <;> decide

/-- The first components of a resolved pair list are the input
events. -/
theorem resolvePairs_map_fst (h : EventHandler) (fuel : Nat) :
    ∀ (es : List Event) (ps : List (Event × ℚ)),
      resolvePairs h fuel es = some ps → ps.map Prod.fst = es := by
  intro es
  induction es with
  | nil =>
    intro ps hps
    simp [resolvePairs] at hps
    subst hps
    rfl
  | cons e es ih =>
    intro ps hps
    unfold resolvePairs at hps
    cases he : timeR h fuel e with
    | none => rw [he] at hps; simp at hps
    | some t =>
      cases hes : resolvePairs h fuel es with
      | none => rw [he, hes] at hps; simp at hps
      | some ps0 =>
        rw [he, hes] at hps
        simp only [Option.some.injEq] at hps
        subst hps
        simp [ih ps0 hes]

/-- Membership in the sorted event view coincides with membership in
`_events`. -/
theorem sortedEvents_mem {h : EventHandler} {fuel : Nat}
    {evts : List Event} (hs : sortedEvents h fuel = some evts) (e : Event) :
    e ∈ evts ↔ e ∈ h.events := by
  unfold sortedEvents at hs
  cases hres : resolvePairs h fuel h.events with
  | none => rw [hres] at hs; simp at hs
  | some ps =>
    rw [hres] at hs
    simp only [Option.some.injEq] at hs
    subst hs
    have hperm : ((ps.mergeSort (fun a b => decide (a.2 ≤ b.2))).map
        Prod.fst).Perm (ps.map Prod.fst) :=
      (ps.mergeSort_perm _).map Prod.fst
    rw [hperm.mem_iff, resolvePairs_map_fst h fuel h.events ps hres]

/-- `find?` by name returns the matching element itself when names are
unique in the list. -/
theorem find?_name_of_mem {l : List Event} {e : Event}
    (hnodup : (l.map Event.name).Nodup) (hmem : e ∈ l) :
    l.find? (fun x => x.name = e.name) = some e := by
  induction l with
  | nil => simp at hmem
  | cons x xs ih =>
    rw [List.map_cons, List.nodup_cons] at hnodup
    rcases List.mem_cons.mp hmem with rfl | hmem2
    · exact List.find?_cons_of_pos _ (by simp)
    · have hx : x.name ≠ e.name := by
        intro hcontra
        exact hnodup.1 (hcontra ▸ List.mem_map_of_mem Event.name hmem2)
      rw [List.find?_cons_of_neg _ (by simp [hx])]
      exact ih hnodup.2 hmem2

/-- Unique names across both collections. -/
def nodupNames (h : EventHandler) : Prop :=
  ((h.events ++ h.durations).map Event.name).Nodup

/-- With unique names, a registered entity is found under its own
name. -/
theorem lookup_of_mem {h : EventHandler} {e : Event}
    (hnodup : nodupNames h) (hmem : e ∈ h.events ∨ e ∈ h.durations) :
    lookupEntity h e.name = some e := by
  unfold nodupNames at hnodup
  rw [List.map_append, List.nodup_append] at hnodup
  obtain ⟨hev, hdur, hdisj⟩ := hnodup
  unfold lookupEntity
  rcases hmem with hmem | hmem
  · have hnone : h.durations.find? (fun x => x.name = e.name) = none := by
      rw [List.find?_eq_none]
      intro d hd hcontra
      simp only [decide_eq_true_eq] at hcontra
      exact hdisj (List.mem_map_of_mem Event.name hmem)
        (hcontra ▸ List.mem_map_of_mem Event.name hd)
    rw [hnone, find?_name_of_mem hev hmem]
  · rw [find?_name_of_mem hdur hmem]

/-- With unique names an event registered in `_events` is not also in
`_durations`. -/
theorem not_mem_durations {h : EventHandler} {e : Event}
    (hnodup : nodupNames h) (hmem : e ∈ h.events) : e ∉ h.durations := by
  unfold nodupNames at hnodup
  rw [List.map_append, List.nodup_append] at hnodup
  intro hcontra
  exact hnodup.2.2 (List.mem_map_of_mem Event.name hmem)
    (List.mem_map_of_mem Event.name hcontra)

/-- Replacing the entity registered under a name by itself changes
nothing. -/
theorem mapEntity_self {h : EventHandler} {e : Event}
    (hnodup : nodupNames h) (hmem : e ∈ h.events ∨ e ∈ h.durations) :
    mapEntity h e.name (fun _ => e) = h := by
  unfold nodupNames at hnodup
  rw [List.map_append, List.nodup_append] at hnodup
  obtain ⟨hev, hdur, hdisj⟩ := hnodup
  have key : ∀ (l : List Event), (l.map Event.name).Nodup →
      (∀ x ∈ l, x.name = e.name → x = e) →
      l.map (fun x => if x.name = e.name then e else x) = l := by
    intro l _ hx
    have : ∀ x ∈ l, (if x.name = e.name then e else x) = x := by
      intro x hxl
      by_cases hxn : x.name = e.name
      · rw [if_pos hxn, hx x hxl hxn]
      · rw [if_neg hxn]
    rw [List.map_congr_left this]
    exact List.map_id _
  unfold mapEntity
  rcases hmem with hmem | hmem
  · have h1 : h.events.map (fun x => if x.name = e.name then e else x) =
        h.events := by
      refine key h.events hev ?_
      intro x hxl hxn
      exact List.inj_on_of_nodup_map hev hxl hmem hxn
    have h2 : h.durations.map (fun x => if x.name = e.name then e else x) =
        h.durations := by
      refine key h.durations hdur ?_
      intro x hxl hxn
      exact absurd (hxn ▸ List.mem_map_of_mem Event.name hxl)
        (fun hc => hdisj (List.mem_map_of_mem Event.name hmem) hc)
    rw [h1, h2]
  · have h1 : h.events.map (fun x => if x.name = e.name then e else x) =
        h.events := by
      refine key h.events hev ?_
      intro x hxl hxn
      exact absurd (List.mem_map_of_mem Event.name hxl)
        (fun hc => hdisj (hxn ▸ hc) (List.mem_map_of_mem Event.name hmem))
    have h2 : h.durations.map (fun x => if x.name = e.name then e else x) =
        h.durations := by
      refine key h.durations hdur ?_
      intro x hxl hxn
      exact List.inj_on_of_nodup_map hdur hxl hmem hxn
    rw [h1, h2]

/-- Writing an independent event's own parameter view back through the
`Event.parameters` setter leaves the event unchanged when its stored
time is already reduced modulo the cycle time; only the external store
is touched (rewritten at the event's path with its current state). -/
theorem entityParamsSet_roundtrip_event (h : EventHandler) (e : Event)
    (st : Store) (hdep : e.dependencies = [])
    (hr1 : 0 ≤ e.stored_time) (hr2 : e.stored_time < h.cycle_time) :
    entityParamsSet false e st (entityParamsGet h false e) =
      ((e, storeSet st e.parameter_path e.state), none) := by
  have hpm : pymod e.stored_time h.cycle_time = e.stored_time :=
    pymod_eq_self hr1 hr2
  have hset : e.setTime (pymod e.stored_time h.cycle_time) = (e, none) := by
    unfold Event.setTime
    rw [if_pos hdep, hpm]
  have hstate : e.setState st e.state =
      (e, storeSet st e.parameter_path e.state) := by
    unfold Event.setState
    rfl
  unfold entityParamsGet
  rw [if_neg (by simp)]
  simp [entityParamsSet, hset, hstate]

/-- Writing an independent duration's parameter view (`time` only) back
leaves both the duration and the store unchanged when its stored time
is already reduced. -/
theorem entityParamsSet_roundtrip_duration (h : EventHandler) (e : Event)
    (st : Store) (hdep : e.dependencies = [])
    (hr1 : 0 ≤ e.stored_time) (hr2 : e.stored_time < h.cycle_time) :
    entityParamsSet true e st (entityParamsGet h true e) =
      ((e, st), none) := by
  have hpm : pymod e.stored_time h.cycle_time = e.stored_time :=
    pymod_eq_self hr1 hr2
  have hset : e.setTime (pymod e.stored_time h.cycle_time) = (e, none) := by
    unfold Event.setTime
    rw [if_pos hdep, hpm]
  unfold entityParamsGet
  rw [if_pos rfl]
  simp [entityParamsSet, hset]

/-- Step equation of the per-entity setter loop when the entity
resolves, is independent, and its own setter succeeds. -/
theorem applyEntityParams_step_ok
    (rest : List (String × List (String × ℚ)))
    {h : EventHandler} {st : Store}
    {n : String} {psn : List (String × ℚ)} {evt evt' : Event}
    {st' : Store}
    (hl : lookupEntity h n = some evt)
    (hmem : evt ∈ h.events.filter (fun e => e.dependencies.isEmpty) ++
        h.durations.filter (fun e => e.dependencies.isEmpty))
    (hset : entityParamsSet (decide (evt ∈ h.durations)) evt st psn =
      ((evt', st'), none)) :
    applyEntityParams h st ((n, psn) :: rest) =
      applyEntityParams (mapEntity h n (fun _ => evt')) st' rest := by
  conv_lhs => unfold applyEntityParams
  rw [hl]
  show (if evt ∈ h.events.filter (fun e => e.dependencies.isEmpty) ++
      h.durations.filter (fun e => e.dependencies.isEmpty) then
    match entityParamsSet (decide (evt ∈ h.durations)) evt st psn with
    | ((evt', st'), none) =>
      applyEntityParams (mapEntity h n (fun _ => evt')) st' rest
    | ((evt', st'), some err) =>
      ((mapEntity h n (fun _ => evt'), st'), some err)
    else ((h, st), some (Err.cadet "is not a valid event"))) = _
  rw [if_pos hmem, hset]

/-- The setter loop applied to entries that each name an independent
registered entity and carry that entity's own (already reduced)
parameter view succeeds and leaves the registry unchanged. -/
theorem applyEntityParams_id (h : EventHandler) (hnodup : nodupNames h) :
    ∀ (ps : List (String × List (String × ℚ))) (st : Store),
      (∀ q ∈ ps, ∃ e, (e ∈ h.events ∨ e ∈ h.durations) ∧
        e.dependencies = [] ∧
        0 ≤ e.stored_time ∧ e.stored_time < h.cycle_time ∧
        q = (e.name, entityParamsGet h (decide (e ∈ h.durations)) e)) →
      ∃ st', applyEntityParams h st ps = ((h, st'), none) := by
  intro ps
  induction ps with
  | nil =>
    intro st _
    exact ⟨st, rfl⟩
  | cons q rest ih =>
    intro st hcond
    obtain ⟨e, hmem, hdep, hr1, hr2, hq⟩ := hcond q (by simp)
    have hlook : lookupEntity h e.name = some e := lookup_of_mem hnodup hmem
    have hmemfil : e ∈ h.events.filter (fun x => x.dependencies.isEmpty) ++
        h.durations.filter (fun x => x.dependencies.isEmpty) := by
      rcases hmem with hm | hm
      · exact List.mem_append_left _
          (List.mem_filter.mpr ⟨hm, by simp [hdep]⟩)
      · exact List.mem_append_right _
          (List.mem_filter.mpr ⟨hm, by simp [hdep]⟩)
    subst hq
    rcases hmem with hm | hm
    · have hdec : decide (e ∈ h.durations) = false := by
        simp [not_mem_durations hnodup hm]
      rw [hdec]
      have hset := entityParamsSet_roundtrip_event h e st hdep hr1 hr2
      have hstep := applyEntityParams_step_ok rest hlook hmemfil
        (by rw [hdec]; exact hset)
      rw [hstep, mapEntity_self hnodup (Or.inl hm)]
      exact ih _ (fun q hq => hcond q (by simp [hq]))
    · have hdec : decide (e ∈ h.durations) = true := by
        simp [hm]
      rw [hdec]
      have hset := entityParamsSet_roundtrip_duration h e st hdep hr1 hr2
      have hstep := applyEntityParams_step_ok rest hlook hmemfil
        (by rw [hdec]; exact hset)
      rw [hstep, mapEntity_self hnodup (Or.inr hm)]
      exact ih _ (fun q hq => hcond q (by simp [hq]))

/-- `handlerParamsSet` with the current cycle time restores the same
cycle time and proceeds with the per-entity loop. -/
theorem handlerParamsSet_same_ct (h : EventHandler) (st : Store)
    (ps : List (String × List (String × ℚ))) :
    handlerParamsSet h st (some h.cycle_time) ps =
      applyEntityParams h st ps := by
  unfold handlerParamsSet
  rfl

/-- Rewriting helper: the `parameters` getter once the sort succeeds. -/
theorem handlerParamsGet_some {h : EventHandler} {fuel : Nat}
    {evts : List Event} (hs : sortedEvents h fuel = some evts) :
    handlerParamsGet h fuel =
      some
        (((evts.filter (fun e => e.dependencies.isEmpty)).map
            (fun e => (e.name, entityParamsGet h false e))) ++
          ((h.durations.filter (fun e => e.dependencies.isEmpty)).map
            (fun e => (e.name, entityParamsGet h true e))),
          h.cycle_time) := by
  unfold handlerParamsGet
  rw [hs]

/-- C8 amended: when every independent event's and duration's stored
time already lies in `[0, cycle_time)` (and names are unique), writing
the `parameters` view back unmodified succeeds and leaves the registry
— hence every derived view — identical; only the external store may be
rewritten (at each event's path, with its current state). -/
theorem C8_parameters_roundtrip (h : EventHandler) (st : Store)
    (fuel : Nat) (hnodup : nodupNames h)
    (hrange : ∀ e ∈ h.events ++ h.durations, e.dependencies = [] →
      0 ≤ e.stored_time ∧ e.stored_time < h.cycle_time)
    (ps : List (String × List (String × ℚ))) (ctv : ℚ)
    (hget : handlerParamsGet h fuel = some (ps, ctv)) :
    ∃ st', handlerParamsSet h st (some ctv) ps = ((h, st'), none) := by
  cases hs : sortedEvents h fuel with
  | none =>
    rw [handlerParamsGet] at hget
    rw [hs] at hget
    simp at hget
  | some evts =>
    rw [handlerParamsGet_some hs] at hget
    simp only [Option.some.injEq, Prod.mk.injEq] at hget
    obtain ⟨hps, hctv⟩ := hget
    subst hps
    subst hctv
    rw [handlerParamsSet_same_ct]
    apply applyEntityParams_id h hnodup
    intro q hq
    rcases List.mem_append.mp hq with hq | hq
    · obtain ⟨e, hef, rfl⟩ := List.mem_map.mp hq
      have he1 : e ∈ evts := (List.mem_filter.mp hef).1
      have he2 : e.dependencies = [] := by
        have h3 := (List.mem_filter.mp hef).2
        simpa using h3
      have hev : e ∈ h.events := (sortedEvents_mem hs e).mp he1
      have hdec : decide (e ∈ h.durations) = false := by
        simp [not_mem_durations hnodup hev]
      refine ⟨e, Or.inl hev, he2,
        (hrange e (List.mem_append_left _ hev) he2).1,
        (hrange e (List.mem_append_left _ hev) he2).2, ?_⟩
      rw [hdec]
    · obtain ⟨e, hef, rfl⟩ := List.mem_map.mp hq
      have hdur : e ∈ h.durations := (List.mem_filter.mp hef).1
      have he2 : e.dependencies = [] := by
        have h3 := (List.mem_filter.mp hef).2
        simpa using h3
      have hdec : decide (e ∈ h.durations) = true := by simp [hdur]
      refine ⟨e, Or.inr hdur, he2,
        (hrange e (List.mem_append_right _ hdur) he2).1,
        (hrange e (List.mem_append_right _ hdur) he2).2, ?_⟩
      rw [hdec]

/-- Registry with one independent event whose stored time `15` exceeds
`cycle_time = 10`. -/
def h8 : EventHandler := ⟨10, [⟨"E", "p", 15, 1, [], []⟩], []⟩

/-- `h8` after the parameters round trip: the stored time has become
`15 mod 10 = 5`. -/
def h8r : EventHandler := ⟨10, [⟨"E", "p", 5, 1, [], []⟩], []⟩

/-- C8 counterexample: reading `parameters` of `h8` and writing the
very same value back yields a registry whose stored time differs from
the original (`5` instead of `15`), so the round trip is not the
identity on the registry state. -/
theorem C8_roundtrip_counterexample :
    handlerParamsGet h8 1 =
      some ([("E", [("time", 5), ("state", 1)])], 10) ∧
    handlerParamsSet h8 [("p", 1)] (some 10)
        [("E", [("time", 5), ("state", 1)])] =
      ((h8r, [("p", 1)]), none) ∧
    h8r ≠ h8 := by
  refine ⟨?_, by decide, by decide⟩
  have hres : resolvePairs h8 1 h8.events =
      some [(⟨"E", "p", 15, 1, [], []⟩, 5)] := by
    simp [h8, resolvePairs, timeR]
    norm_num [pymod]
  have hsort : sortedEvents h8 1 = some [⟨"E", "p", 15, 1, [], []⟩] := by
    rw [sortedEvents_some hres, List.mergeSort_singleton]
    rfl
  rw [handlerParamsGet_some hsort]
  simp [h8, entityParamsGet]
  norm_num [pymod]

/-- Closed instance of `C8_parameters_roundtrip`: on the registry with
reduced stored time `5`, the round trip succeeds and returns the
registry unchanged. -/
theorem C8_parameters_roundtrip_witness :
    ∃ st', handlerParamsSet h8r [] (some 10)
        [("E", [("time", 5), ("state", 1)])] = ((h8r, st'), none) := by
  have hres : resolvePairs h8r 1 h8r.events =
      some [(⟨"E", "p", 5, 1, [], []⟩, 5)] := by
    simp [h8r, resolvePairs, timeR]
    norm_num [pymod]
  have hsort : sortedEvents h8r 1 = some [⟨"E", "p", 5, 1, [], []⟩] := by
    rw [sortedEvents_some hres, List.mergeSort_singleton]
    rfl
  have hget : handlerParamsGet h8r 1 =
      some ([("E", [("time", 5), ("state", 1)])], 10) := by
    rw [handlerParamsGet_some hsort]
    simp [h8r, entityParamsGet]
    norm_num [pymod]
  exact C8_parameters_roundtrip h8r [] 1
    (by unfold nodupNames; decide) (by decide) _ _ hget

end CadetEvent
